import Mathlib

/-!
Verification of the dynamic-array container in src/AdvancedVector/vector.h.

Two embeddings are used:

* A value-level model Vec: the live elements in slots [0, size_) are a list,
  cap models data_.Capacity(), size_ is the length of the list.  All public
  Vector operations are translated from the source at this level.

* A heap-level model (Heap, RawMemory, HVector) that tracks which raw blocks
  are allocated and which slots hold constructed objects.  It is used for the
  claims about resource release on move assignment and about the strong
  exception guarantee of EmplaceBack, which are invisible at the value level.
-/

namespace AdvVec

/-- Value-level model of Vector<T> (vector.h, lines 98-383): elems is the list of
live elements occupying slots [0, size_), cap is data_.Capacity(). -/
structure Vec (α : Type) where
  elems : List α
  cap : Nat
deriving Repr, DecidableEq

/-- size_ accessor (vector.h line 342): the count of live elements. -/
def Vec.size {α : Type} (v : Vec α) : Nat := v.elems.length

/-- Vector() = default (line 124): size 0, no allocation, capacity 0. -/
def Vec.empty (α : Type) : Vec α := ⟨[], 0⟩

/-- explicit Vector(size_t size) (lines 126-129): allocates capacity exactly size and
value-constructs size elements; d is the value produced by value-construction of T. -/
def Vec.ofSize {α : Type} (n : Nat) (d : α) : Vec α := ⟨List.replicate n d, n⟩

/-- Vector(const Vector and other) (lines 131-139): capacity other.Size(), then the
live elements are transferred buffer-to-buffer (move or copy branch; both leave the
same values in the new buffer). -/
def Vec.copyCtor {α : Type} (o : Vec α) : Vec α := ⟨o.elems, o.size⟩

/-- Vector(Vector and other) noexcept (lines 141-145): takes the block and size of
other; the RawMemory move constructor leaves other with a null buffer and capacity 0,
and other.size_ is set to 0.  Returns (destination, source after the move). -/
def Vec.moveCtor {α : Type} (o : Vec α) : Vec α × Vec α :=
  (⟨o.elems, o.cap⟩, ⟨[], 0⟩)

/-- EmplaceBack (lines 220-244).  If size_ < Capacity(), the new element is
constructed in the next free slot of the current block.  Otherwise a new block of
capacity (size_ == 0 ? 1 : Capacity() * 2) is allocated, the new element is
constructed at offset size_ there, the old elements are transferred to offsets
[0, size_), the blocks are swapped and the old block is destroyed.  Either way
size_ is incremented; the live list becomes elems ++ [x]. -/
def Vec.emplaceBack {α : Type} (v : Vec α) (x : α) : Vec α :=
  if v.size < v.cap then
    ⟨v.elems ++ [x], v.cap⟩
  else
    ⟨v.elems ++ [x], if v.size = 0 then 1 else v.cap * 2⟩

/-- PushBack (lines 207-213): delegates to EmplaceBack. -/
def Vec.pushBack {α : Type} (v : Vec α) (x : α) : Vec α := v.emplaceBack x

/-- PopBack (lines 215-218): destroys the element at offset size_ - 1 and decrements
size_; the capacity is not touched.  (Precondition size_ > 0; on the empty vector the
source has undefined behavior.) -/
def Vec.popBack {α : Type} (v : Vec α) : Vec α := ⟨v.elems.dropLast, v.cap⟩

/-- EmplaceWithoutRealloc(dist, args) (lines 246-253): materializes the new value as
the temporary copy_obj, move-constructs the last element into the one-past-end slot,
shifts the range [dist, size_-1) one slot right with std::move_backward, and
move-assigns copy_obj into slot dist.  Together with the ++size_ done by the caller
(line 293) the live list becomes take dist ++ x :: drop dist; the capacity is kept. -/
def Vec.emplaceWithoutRealloc {α : Type} (v : Vec α) (dist : Nat) (x : α) : Vec α :=
  ⟨v.elems.take dist ++ x :: v.elems.drop dist, v.cap⟩

/-- EmplaceWithRealloc(dist, args) (lines 255-277): allocates a new block of capacity
(size_ == 0 ? 1 : size_ * 2), constructs the new element at offset dist in it,
transfers the prefix [0, dist) to [0, dist) and the suffix [dist, size_) to
[dist+1, size_+1), then swaps blocks and destroys the old elements.  Together with
the ++size_ done by the caller the live list becomes take dist ++ x :: drop dist. -/
def Vec.emplaceWithRealloc {α : Type} (v : Vec α) (dist : Nat) (x : α) : Vec α :=
  ⟨v.elems.take dist ++ x :: v.elems.drop dist,
    if v.size = 0 then 1 else v.size * 2⟩

/-- Emplace(pos, args) (lines 279-295) with pos = begin() + dist.  If pos == end()
it delegates to EmplaceBack and returns its address, which is offset size_ (the old
size).  Otherwise it runs the in-place or the reallocating path depending on spare
capacity, increments size_, and returns begin() + dist.  The returned offset is the
second component. -/
def Vec.emplace {α : Type} (v : Vec α) (dist : Nat) (x : α) : Vec α × Nat :=
  if dist = v.size then
    (v.emplaceBack x, v.size)
  else if v.size < v.cap then
    (v.emplaceWithoutRealloc dist x, dist)
  else
    (v.emplaceWithRealloc dist x, dist)

/-- Insert(pos, value) (lines 309-315): a thin wrapper over Emplace. -/
def Vec.insert {α : Type} (v : Vec α) (dist : Nat) (x : α) : Vec α × Nat :=
  v.emplace dist x

/-- Erase(pos) (lines 297-306) with pos = begin() + dist: std::move shifts the range
(dist, size_) one slot left onto [dist, size_-1), the vacated last slot is destroyed
and size_ decremented; capacity untouched.  Returns begin() + dist, modelled as the
offset dist.  (Precondition: dist < size_.) -/
def Vec.erase {α : Type} (v : Vec α) (dist : Nat) : Vec α × Nat :=
  (⟨v.elems.take dist ++ v.elems.drop (dist + 1), v.cap⟩, dist)

/-- Reserve(new_capacity) (lines 322-340): returns immediately when
new_capacity <= Capacity(); otherwise allocates a block of exactly new_capacity
slots, transfers the live elements, destroys the old ones and swaps the blocks. -/
def Vec.reserve {α : Type} (v : Vec α) (newCap : Nat) : Vec α :=
  if newCap ≤ v.cap then v else ⟨v.elems, newCap⟩

/-- Resize(new_size) (lines 182-204): no-op when equal; when smaller, destroys the
trailing elements; when larger, reserves if needed and value-constructs the new
trailing elements (d is the value-constructed value of T). -/
def Vec.resize {α : Type} (v : Vec α) (n : Nat) (d : α) : Vec α :=
  if n = v.size then v
  else if n < v.size then ⟨v.elems.take n, v.cap⟩
  else
    let v1 := if n > v.cap then v.reserve n else v
    ⟨v1.elems ++ List.replicate (n - v.size) d, v1.cap⟩

/-- Swap(other) (lines 317-320): exchanges the blocks and the sizes. -/
def Vec.swap {α : Type} (a b : Vec α) : Vec α × Vec α := (b, a)

/-- operator=(const Vector and rhs) (lines 147-170).  The body runs only when
this != rhs (modelled by the flag selfAliased = false): if rhs.size_ exceeds the
capacity, a full copy is built and swapped in (capacity becomes rhs.size_); otherwise
the existing block is reused, the overlapping prefix copy-assigned, the tail either
destroyed or copy-constructed (capacity kept).  In every case the final live list is
rhs.elems; the trailing size_ = rhs.size_ of line 168 is reflected by the length of
that list. -/
def Vec.copyAssign {α : Type} (dst rhs : Vec α) (selfAliased : Bool) : Vec α :=
  if selfAliased then dst
  else if rhs.size > dst.cap then ⟨rhs.elems, rhs.size⟩
  else ⟨rhs.elems, dst.cap⟩

/-- operator=(Vector and rhs) noexcept, the move overload (lines 172-180): when
this != rhs, data_ = std::move(rhs.data_) takes the buffer and capacity of rhs (the
RawMemory move assignment nulls rhs.data_), size_ = rhs.size_ and rhs.size_ = 0.
Returns (destination, source after the move). -/
def Vec.moveAssign {α : Type} (dst rhs : Vec α) (selfAliased : Bool) : Vec α × Vec α :=
  if selfAliased then (dst, rhs)
  else (⟨rhs.elems, rhs.cap⟩, ⟨[], 0⟩)

/-- States reachable from the public constructors of Vector by sequences of its
public operations, with arbitrary element arguments; d stands for the result of
value-construction where the source value-constructs. -/
inductive Reachable {α : Type} : Vec α → Prop where
  | ctorDefault : Reachable (Vec.empty α)
  | ctorSized (n : Nat) (d : α) : Reachable (Vec.ofSize n d)
  | ctorCopy {o : Vec α} : Reachable o → Reachable (Vec.copyCtor o)
  | ctorMoveDst {o : Vec α} : Reachable o → Reachable (Vec.moveCtor o).1
  | ctorMoveSrc {o : Vec α} : Reachable o → Reachable (Vec.moveCtor o).2
  | assignCopy {dst rhs : Vec α} : Reachable dst → Reachable rhs →
      Reachable (dst.copyAssign rhs false)
  | assignCopySelf {v : Vec α} : Reachable v → Reachable (v.copyAssign v true)
  | assignMoveDst {dst rhs : Vec α} : Reachable dst → Reachable rhs →
      Reachable (dst.moveAssign rhs false).1
  | assignMoveSrc {dst rhs : Vec α} : Reachable dst → Reachable rhs →
      Reachable (dst.moveAssign rhs false).2
  | assignMoveSelf {v : Vec α} : Reachable v → Reachable (v.moveAssign v true).1
  | resize {v : Vec α} (n : Nat) (d : α) : Reachable v → Reachable (v.resize n d)
  | pushBack {v : Vec α} (x : α) : Reachable v → Reachable (v.pushBack x)
  | emplaceBack {v : Vec α} (x : α) : Reachable v → Reachable (v.emplaceBack x)
  | popBack {v : Vec α} : 0 < v.size → Reachable v → Reachable v.popBack
  | emplace {v : Vec α} (dist : Nat) (x : α) : dist ≤ v.size → Reachable v →
      Reachable (v.emplace dist x).1
  | insert {v : Vec α} (dist : Nat) (x : α) : dist ≤ v.size → Reachable v →
      Reachable (v.insert dist x).1
  | erase {v : Vec α} (dist : Nat) : dist < v.size → Reachable v →
      Reachable (v.erase dist).1
  | reserve {v : Vec α} (n : Nat) : Reachable v → Reachable (v.reserve n)
  | swapFst {a b : Vec α} : Reachable a → Reachable b → Reachable (Vec.swap a b).1
  | swapSnd {a b : Vec α} : Reachable a → Reachable b → Reachable (Vec.swap a b).2

/-- The capacity of the vector obtained by n successive appends to the default
vector: an append keeps the capacity when a slot is free and otherwise grows it
exactly as EmplaceBack line 227 does (size_ == 0 ? 1 : Capacity() * 2). -/
def capAfter : Nat → Nat
  | 0 => 0
  | n + 1 => if n < capAfter n then capAfter n else (if n = 0 then 1 else capAfter n * 2)

/-- The vector produced by successive PushBack calls of the values xs, in order,
starting from the default-constructed vector. -/
def pushSeq {α : Type} (xs : List α) : Vec α := xs.foldl Vec.pushBack (Vec.empty α)

/-! ### Heap-level model

Raw blocks, allocation and object lifetime, for the claims that are invisible at
the value level: release of resources on move assignment (RawMemory lines 26-36,
Vector lines 172-180) and the strong exception guarantee of EmplaceBack
(lines 220-244). -/

/-- Identifier of an allocated raw block. -/
abbrev BlockId := Nat

/-- An allocated raw region for cap element slots; slot i holds some x when a live
object x has been constructed there and none when the slot is uninitialized. -/
structure Block (α : Type) where
  cap : Nat
  slots : List (Option α)
deriving Repr, DecidableEq

/-- The allocator state: mem gives the block allocated under each identifier (none
when the identifier is unallocated), nextId is the next fresh identifier. -/
structure Heap (α : Type) where
  mem : BlockId → Option (Block α)
  nextId : BlockId

/-- RawMemory<T> (vector.h lines 10-96): buffer_ is null (none) or an allocated
block identifier; capacity_ is the slot count. -/
structure RawMemory where
  buffer : Option BlockId
  capacity : Nat
deriving Repr, DecidableEq

/-- Allocate(n) (lines 85-87): for n == 0 returns nullptr without an allocation
request; otherwise records a fresh block of n uninitialized slots. -/
def Heap.alloc {α : Type} (h : Heap α) (n : Nat) : Heap α × Option BlockId :=
  if n = 0 then (h, none)
  else
    (⟨fun j => if j = h.nextId then some ⟨n, List.replicate n none⟩ else h.mem j,
       h.nextId + 1⟩,
     some h.nextId)

/-- Deallocate(buf) (lines 90-92) on an owning pointer: operator delete; deleting
nullptr is a no-op, deleting a block removes it from the allocated set. -/
def Heap.free {α : Type} (h : Heap α) (b : Option BlockId) : Heap α :=
  match b with
  | none => h
  | some i => ⟨fun j => if j = i then none else h.mem j, h.nextId⟩

/-- Writing slot off of block b: placement-new stores some x there, a destructor
call stores none.  A null or unallocated target leaves the heap unchanged (such an
access is a precondition violation in the source). -/
def Heap.setSlot {α : Type} (h : Heap α) (b : Option BlockId) (off : Nat)
    (val : Option α) : Heap α :=
  match b with
  | none => h
  | some i =>
    ⟨fun j => if j = i then (h.mem i).map (fun blk => ⟨blk.cap, blk.slots.set off val⟩)
      else h.mem j,
     h.nextId⟩

/-- Reading slot off of block b; none for a null buffer, an unallocated block or an
uninitialized slot (reads of those are precondition violations in the source). -/
def Heap.read {α : Type} (h : Heap α) (b : Option BlockId) (off : Nat) : Option α :=
  match b with
  | none => none
  | some i =>
    match h.mem i with
    | none => none
    | some blk => blk.slots.getD off none

/-- RawMemory(size_t capacity) (lines 38-41): buffer_ = Allocate(capacity). -/
def rawMemoryNew {α : Type} (h : Heap α) (n : Nat) : Heap α × RawMemory :=
  let p := h.alloc n
  (p.1, ⟨p.2, n⟩)

/-- The RawMemory destructor (lines 43-45): Deallocate(buffer_).  It frees the raw
region only; it runs no element destructors. -/
def rawMemoryDtor {α : Type} (h : Heap α) (r : RawMemory) : Heap α := h.free r.buffer

/-- RawMemory::Swap (lines 66-69): exchanges buffer_ and capacity_. -/
def RawMemory.swapWith (a b : RawMemory) : RawMemory × RawMemory := (b, a)

/-- RawMemory move assignment (lines 26-36): when this != rhs, buffer_ and capacity_
are overwritten with those of rhs and rhs is nulled.  The body contains no
Deallocate call, so the previously held buffer of the destination is not freed;
the heap is not touched at all. -/
def rawMoveAssign (dst rhs : RawMemory) (selfAliased : Bool) : RawMemory × RawMemory :=
  if selfAliased then (dst, rhs)
  else (⟨rhs.buffer, rhs.capacity⟩, ⟨none, 0⟩)

/-- Heap-level Vector state: size_ and data_. -/
structure HVector where
  size : Nat
  data : RawMemory
deriving Repr, DecidableEq

/-- Vector move assignment (lines 172-180): data_ = std::move(rhs.data_) via the
RawMemory move assignment, size_ = rhs.size_, rhs.size_ = 0.  The body runs no
element destructor and no Deallocate, so the heap is passed through unchanged.
Returns (heap, destination, source after the move). -/
def hvMoveAssign {α : Type} (h : Heap α) (dst rhs : HVector) (selfAliased : Bool) :
    Heap α × HVector × HVector :=
  if selfAliased then (h, dst, rhs)
  else
    let q := rawMoveAssign dst.data rhs.data false
    (h, ⟨rhs.size, q.1⟩, ⟨0, q.2⟩)

/-- Destruction of the n slots [0, n) of block b (std::destroy_n semantics),
executed left to right. -/
def Heap.destroyN {α : Type} (h : Heap α) (b : Option BlockId) : Nat → Heap α
  | 0 => h
  | n + 1 => ((h.destroyN b n).setSlot b n none)

/-- Transfer of the n slots [0, n) from block s to block d
(std::uninitialized_copy_n and std::uninitialized_move_n both leave these values
constructed at [0, n) of d), executed left to right. -/
def Heap.transferN {α : Type} (h : Heap α) (s d : Option BlockId) : Nat → Heap α
  | 0 => h
  | n + 1 =>
    let h1 := h.transferN s d n
    h1.setSlot d n (h1.read s n)

/-- Bulk buffer-to-buffer transfer of EmplaceBack (lines 232-236).  When the
if-constexpr guard selects the move branch (useMove), element moves do not throw
and the transfer completes.  On the copy branch, a copy constructor may throw while
copying slot j (copyFailsAt = some j with j < n); std::uninitialized_copy_n then
destroys the already-constructed copies [0, j) of d before propagating, so the
error value is the heap after those constructions and destructions. -/
def bulkTransfer {α : Type} (h : Heap α) (s d : Option BlockId) (n : Nat)
    (useMove : Bool) (copyFailsAt : Option Nat) : Except (Heap α) (Heap α) :=
  if useMove then Except.ok (h.transferN s d n)
  else
    match copyFailsAt with
    | none => Except.ok (h.transferN s d n)
    | some j =>
      if j < n then Except.error ((h.transferN s d j).destroyN d j)
      else Except.ok (h.transferN s d n)

/-- EmplaceBack (lines 220-244) at the heap level, with failure injection for the
two fallible element operations.  ctorFails: the constructor call of the new
element throws (lines 224 or 230); nothing was constructed, locals unwind.
copyFailsAt: a copy in the bulk transfer throws (only possible on the copy branch,
line 235).  On the non-growth path the element is constructed in place in the
current block.  On the growth path a fresh block new_data of capacity
(size_ == 0 ? 1 : Capacity() * 2) is constructed, the new element is constructed at
offset size_ of new_data first, then the old elements are transferred; only then
data_.Swap(new_data) commits, the old elements are destroyed (line 239) and the
old block is freed by the new_data destructor at scope exit.  If an exception
propagates, the only unwinding action is the new_data destructor, which frees the
fresh raw region without running destructors of objects inside it.  Error results
carry the heap after unwinding and the unchanged vector. -/
def hvEmplaceBack {α : Type} (h : Heap α) (v : HVector) (x : α) (useMove : Bool)
    (ctorFails : Bool) (copyFailsAt : Option Nat) :
    Except (Heap α × HVector) (Heap α × HVector) :=
  if v.size < v.data.capacity then
    if ctorFails then Except.error (h, v)
    else Except.ok (h.setSlot v.data.buffer v.size (some x), ⟨v.size + 1, v.data⟩)
  else
    let newCap := if v.size = 0 then 1 else v.data.capacity * 2
    let p := rawMemoryNew h newCap
    if ctorFails then Except.error (rawMemoryDtor p.1 p.2, v)
    else
      let h2 := p.1.setSlot p.2.buffer v.size (some x)
      match bulkTransfer h2 v.data.buffer p.2.buffer v.size useMove copyFailsAt with
      | Except.error h3 => Except.error (rawMemoryDtor h3 p.2, v)
      | Except.ok h3 =>
        let q := v.data.swapWith p.2
        let h4 := h3.destroyN q.2.buffer v.size
        Except.ok (rawMemoryDtor h4 q.2, ⟨v.size + 1, q.1⟩)

/-- The heap left behind when the constructor call of the new element throws on the
growth path of EmplaceBack: the fresh block is allocated and then freed again by the
unwinding RawMemory destructor of new_data. -/
def growCtorFailHeap {α : Type} (h : Heap α) (v : HVector) : Heap α :=
  Heap.free (h.alloc (if v.size = 0 then 1 else v.data.capacity * 2)).1
    (h.alloc (if v.size = 0 then 1 else v.data.capacity * 2)).2

/-- The heap left behind when copy j throws during the bulk transfer on the growth
path of EmplaceBack: fresh block allocated, new element constructed at offset size_,
copies [0, j) constructed and destroyed again by std::uninitialized_copy_n, fresh
block freed by the unwinding RawMemory destructor of new_data. -/
def growCopyFailHeap {α : Type} (h : Heap α) (v : HVector) (x : α) (j : Nat) : Heap α :=
  Heap.free
    (Heap.destroyN
      (Heap.transferN
        (Heap.setSlot (h.alloc (if v.size = 0 then 1 else v.data.capacity * 2)).1
          (h.alloc (if v.size = 0 then 1 else v.data.capacity * 2)).2 v.size (some x))
        v.data.buffer (h.alloc (if v.size = 0 then 1 else v.data.capacity * 2)).2 j)
      (h.alloc (if v.size = 0 then 1 else v.data.capacity * 2)).2 j)
    (h.alloc (if v.size = 0 then 1 else v.data.capacity * 2)).2

/-- A concrete allocator state for exercising the move assignment defect: block 0
(capacity 1, one live element 10) and block 1 (capacity 1, one live element 20) are
allocated. -/
def leakHeap : Heap Nat :=
  ⟨fun j => if j = 0 then some ⟨1, [some 10]⟩
    else if j = 1 then some ⟨1, [some 20]⟩ else none, 2⟩

/-- A destination vector of size 1 owning block 0. -/
def leakDst : HVector := ⟨1, ⟨some 0, 1⟩⟩

/-- A source vector of size 1 owning block 1. -/
def leakSrc : HVector := ⟨1, ⟨some 1, 1⟩⟩

/-- A concrete allocator state with a single allocated block 0 holding one live
element, owned by fullVec below. -/
def fullHeap : Heap Nat := ⟨fun j => if j = 0 then some ⟨1, [some 10]⟩ else none, 1⟩

/-- A full vector (size 1 = capacity 1) owning block 0 of fullHeap. -/
def fullVec : HVector := ⟨1, ⟨some 0, 1⟩⟩

theorem emplaceBack_elems {α : Type} (v : Vec α) (x : α) :
    (v.emplaceBack x).elems = v.elems ++ [x] := by
  unfold Vec.emplaceBack
  split <;> rfl

theorem pushBack_elems {α : Type} (v : Vec α) (x : α) :
    (v.pushBack x).elems = v.elems ++ [x] := by
  unfold Vec.pushBack Vec.emplaceBack
  split <;> rfl

theorem pushBack_size {α : Type} (v : Vec α) (x : α) :
    (v.pushBack x).size = v.size + 1 := by
  simp [Vec.size, pushBack_elems]

theorem foldl_pushBack_elems {α : Type} (xs : List α) (v : Vec α) :
    (xs.foldl Vec.pushBack v).elems = v.elems ++ xs := by
  induction xs generalizing v with
  | nil => simp
  | cons x xs ih => simp [List.foldl_cons, ih, pushBack_elems]

theorem pushSeq_elems {α : Type} (xs : List α) : (pushSeq xs).elems = xs := by
  simp [pushSeq, foldl_pushBack_elems, Vec.empty]

theorem pushSeq_size {α : Type} (xs : List α) : (pushSeq xs).size = xs.length := by
  simp [Vec.size, pushSeq_elems]

theorem pushBack_cap {α : Type} (v : Vec α) (x : α) :
    (v.pushBack x).cap =
      if v.size < v.cap then v.cap else (if v.size = 0 then 1 else v.cap * 2) := by
  unfold Vec.pushBack Vec.emplaceBack
  split <;> simp_all

theorem pushSeq_cap {α : Type} (xs : List α) : (pushSeq xs).cap = capAfter xs.length := by
  induction xs using List.reverseRecOn with
  | nil => rfl
  | append_singleton xs x ih =>
    have hfold : pushSeq (xs ++ [x]) = (pushSeq xs).pushBack x := by
      simp [pushSeq, List.foldl_append]
    rw [hfold, pushBack_cap, pushSeq_size, ih]
    simp [capAfter]

theorem capAfter_spec : ∀ n : Nat, 1 ≤ n →
    n ≤ capAfter n ∧ capAfter n < 2 * n ∧ ∃ k : Nat, capAfter n = 2 ^ k := by
  intro n hn
  induction n with
  | zero => omega
  | succ m ih =>
    rcases Nat.eq_zero_or_pos m with hm | hm
    · subst hm
      refine ⟨by simp [capAfter], by simp [capAfter], 0, by simp [capAfter]⟩
    · obtain ⟨h1, h2, k, hk⟩ := ih hm
      by_cases hlt : m < capAfter m
      · refine ⟨?_, ?_, k, ?_⟩ <;> simp [capAfter, hlt] <;> omega
      · have hme : capAfter m = m := by omega
        have hm0 : m ≠ 0 := by omega
        refine ⟨?_, ?_, ?_⟩
        · simp [capAfter, hlt, hm0]; omega
        · simp [capAfter, hlt, hm0]; omega
        · refine ⟨k + 1, ?_⟩
          have hstep : capAfter (m + 1) = capAfter m * 2 := by simp [capAfter, hlt, hm0]
          rw [hstep, hk, pow_succ]

/-! ### Heap lemmas -/

theorem Heap.free_mem_ne {α : Type} (h : Heap α) (i j : BlockId) (hj : j ≠ i) :
    (h.free (some i)).mem j = h.mem j := by
  simp [Heap.free, hj]

theorem Heap.free_mem_self {α : Type} (h : Heap α) (i : BlockId) :
    (h.free (some i)).mem i = none := by
  simp [Heap.free]

theorem Heap.setSlot_mem_ne {α : Type} (h : Heap α) (b : Option BlockId) (off : Nat)
    (val : Option α) (j : BlockId) (hb : b ≠ some j) :
    (h.setSlot b off val).mem j = h.mem j := by
  cases b with
  | none => rfl
  | some i =>
    have hij : j ≠ i := by
      intro e
      exact hb (by rw [e])
    simp [Heap.setSlot, hij]

theorem Heap.transferN_mem_ne {α : Type} (h : Heap α) (s d : Option BlockId) (n : Nat)
    (j : BlockId) (hd : d ≠ some j) :
    (h.transferN s d n).mem j = h.mem j := by
  induction n with
  | zero => rfl
  | succ m ih =>
    show ((h.transferN s d m).setSlot d m ((h.transferN s d m).read s m)).mem j = _
    rw [Heap.setSlot_mem_ne _ _ _ _ _ hd, ih]

theorem Heap.destroyN_mem_ne {α : Type} (h : Heap α) (b : Option BlockId) (n : Nat)
    (j : BlockId) (hb : b ≠ some j) :
    (h.destroyN b n).mem j = h.mem j := by
  induction n with
  | zero => rfl
  | succ m ih =>
    show ((h.destroyN b m).setSlot b m none).mem j = _
    rw [Heap.setSlot_mem_ne _ _ _ _ _ hb, ih]

theorem Heap.alloc_fst_mem_ne {α : Type} (h : Heap α) (n : Nat) (j : BlockId)
    (hn : n ≠ 0) (hj : j ≠ h.nextId) : ((h.alloc n).1).mem j = h.mem j := by
  simp [Heap.alloc, hn, hj]

theorem Heap.alloc_snd {α : Type} (h : Heap α) (n : Nat) (hn : n ≠ 0) :
    (h.alloc n).2 = some h.nextId := by
  simp [Heap.alloc, hn]

/-! ### Claim C1 -/

/-- C1 (defect in the code): move-assigning a source vector into a destination that
owns an allocated block with a live element does not free the destination block and
does not run the destructors of its elements.  The modelled operator returns the
heap unchanged: block 0, the prior destination block, is still allocated with its
element still constructed, yet neither resulting vector references it any more (the
destination now holds block 1 and the source is nulled), so the block is leaked and
the element destructor skipped.  This contradicts the claim that the prior region
is released and its elements destroyed first. -/
theorem moveAssign_leaks_destination_block :
    (hvMoveAssign leakHeap leakDst leakSrc false).1 = leakHeap ∧
    ((hvMoveAssign leakHeap leakDst leakSrc false).1).mem 0 = some ⟨1, [some 10]⟩ ∧
    (hvMoveAssign leakHeap leakDst leakSrc false).2.1 = ⟨1, ⟨some 1, 1⟩⟩ ∧
    (hvMoveAssign leakHeap leakDst leakSrc false).2.2 = ⟨0, ⟨none, 0⟩⟩ :=
  ⟨rfl, rfl, rfl, rfl⟩

/-! ### Claim C4 -/

/-- C4: EmplaceBack on a full vector gives the strong guarantee.  The new element is
constructed in the fresh block before any existing element is transferred; if that
construction throws, or if the bulk transfer throws (possible only on the copy
branch, at some index j below size_), the call fails with the vector observably
unchanged, every block other than the fresh one untouched (in particular the
original block with all its live elements), and the fresh block released. -/
theorem emplaceBack_strong_guarantee {α : Type} (h : Heap α) (v : HVector) (x : α)
    (useMove ctorFails : Bool) (copyFailsAt : Option Nat)
    (hfull : v.size = v.data.capacity)
    (hfail : ctorFails = true ∨
      (useMove = false ∧ ∃ j, copyFailsAt = some j ∧ j < v.size)) :
    ∃ h2 : Heap α,
      hvEmplaceBack h v x useMove ctorFails copyFailsAt = Except.error (h2, v) ∧
      (∀ k, k ≠ h.nextId → h2.mem k = h.mem k) ∧
      h2.mem h.nextId = none := by
  have hnlt : ¬ v.size < v.data.capacity := by omega
  have hcapne : (if v.size = 0 then 1 else v.data.capacity * 2) ≠ 0 := by
    by_cases h0 : v.size = 0
    · simp [h0]
    · simp [h0]
      omega
  have hnb := Heap.alloc_snd h _ hcapne
  cases ctorFails with
  | true =>
    refine ⟨growCtorFailHeap h v, ?_, ?_, ?_⟩
    · simp [hvEmplaceBack, growCtorFailHeap, rawMemoryNew, rawMemoryDtor, hnlt]
    · intro k hk
      unfold growCtorFailHeap
      rw [hnb, Heap.free_mem_ne _ _ _ hk, Heap.alloc_fst_mem_ne _ _ _ hcapne hk]
    · unfold growCtorFailHeap
      rw [hnb, Heap.free_mem_self]
  | false =>
    rcases hfail with hc | ⟨hmv, j, hcf, hj⟩
    · exact absurd hc (by simp)
    · subst hmv
      subst hcf
      refine ⟨growCopyFailHeap h v x j, ?_, ?_, ?_⟩
      · simp [hvEmplaceBack, bulkTransfer, growCopyFailHeap, rawMemoryNew,
          rawMemoryDtor, hnlt, hj]
      · intro k hk
        have hsk : ((some h.nextId : Option BlockId) ≠ some k) := by
          simpa using (Ne.symm hk)
        unfold growCopyFailHeap
        rw [hnb, Heap.free_mem_ne _ _ _ hk, Heap.destroyN_mem_ne _ _ _ _ hsk,
          Heap.transferN_mem_ne _ _ _ _ _ hsk, Heap.setSlot_mem_ne _ _ _ _ _ hsk,
          Heap.alloc_fst_mem_ne _ _ _ hcapne hk]
      · unfold growCopyFailHeap
        rw [hnb, Heap.free_mem_self]

/-- Witness for C4 at a concrete input: fullHeap with the full vector fullVec of
size 1 = capacity 1, appending 20 on the copy branch with the copy of slot 0
throwing. -/
theorem emplaceBack_strong_guarantee_app :
    ∃ h2 : Heap Nat,
      hvEmplaceBack fullHeap fullVec 20 false false (some 0) =
        Except.error (h2, fullVec) ∧
      (∀ k, k ≠ fullHeap.nextId → h2.mem k = fullHeap.mem k) ∧
      h2.mem fullHeap.nextId = none :=
  emplaceBack_strong_guarantee fullHeap fullVec 20 false false (some 0) rfl
    (Or.inr ⟨rfl, 0, rfl, by decide⟩)

/-! ### Well-formedness of each operation, for Claim C2 -/

theorem emplaceBack_wf {α : Type} {v : Vec α} (x : α) (ih : v.size ≤ v.cap) :
    (v.emplaceBack x).size ≤ (v.emplaceBack x).cap := by
  unfold Vec.emplaceBack
  split
  · simp [Vec.size] at *
    omega
  · simp [Vec.size] at *
    split <;> omega

theorem emplace_wf {α : Type} {v : Vec α} {dist : Nat} (x : α) (hd : dist ≤ v.size)
    (ih : v.size ≤ v.cap) :
    ((v.emplace dist x).1).size ≤ ((v.emplace dist x).1).cap := by
  unfold Vec.emplace
  split
  · exact emplaceBack_wf x ih
  · split
    · unfold Vec.emplaceWithoutRealloc
      simp [Vec.size] at *
      omega
    · unfold Vec.emplaceWithRealloc
      simp [Vec.size] at *
      split <;> omega

theorem resize_wf {α : Type} {v : Vec α} (n : Nat) (d : α) (ih : v.size ≤ v.cap) :
    (v.resize n d).size ≤ (v.resize n d).cap := by
  unfold Vec.resize Vec.reserve
  by_cases h1 : n = v.size
  · rw [if_pos h1]
    exact ih
  · rw [if_neg h1]
    by_cases h2 : n < v.size
    · rw [if_pos h2]
      simp [Vec.size] at *
      omega
    · rw [if_neg h2]
      by_cases h3 : v.cap < n
      · have hr : ¬ n ≤ v.cap := by omega
        simp only [if_pos h3, if_neg hr]
        simp [Vec.size] at *
        omega
      · simp only [if_neg h3]
        simp [Vec.size] at *
        omega

theorem copyAssign_wf {α : Type} {dst rhs : Vec α} (ihd : dst.size ≤ dst.cap)
    (ihr : rhs.size ≤ rhs.cap) :
    (dst.copyAssign rhs false).size ≤ (dst.copyAssign rhs false).cap := by
  have hred : dst.copyAssign rhs false =
      if rhs.size > dst.cap then ⟨rhs.elems, rhs.size⟩ else ⟨rhs.elems, dst.cap⟩ := by
    simp [Vec.copyAssign]
  rw [hred]
  split
  · simp [Vec.size]
  · simp [Vec.size] at *
    omega

/-! ### Claim C2 -/

/-- C2: for every reachable state of a Vector (under any sequence of the public
operations starting from a constructor), size is at most capacity. -/
theorem reachable_size_le_cap {α : Type} (v : Vec α) (h : Reachable v) :
    v.size ≤ v.cap := by
  induction h with
  | ctorDefault => simp [Vec.empty, Vec.size]
  | ctorSized n d => simp [Vec.ofSize, Vec.size]
  | ctorCopy h1 ih => simp [Vec.copyCtor, Vec.size]
  | ctorMoveDst h1 ih => exact ih
  | ctorMoveSrc h1 ih => simp [Vec.moveCtor, Vec.size]
  | assignCopy h1 h2 ih1 ih2 => exact copyAssign_wf ih1 ih2
  | assignCopySelf h1 ih => simpa [Vec.copyAssign] using ih
  | assignMoveDst h1 h2 ih1 ih2 => exact ih2
  | assignMoveSrc h1 h2 ih1 ih2 => simp [Vec.moveAssign, Vec.size]
  | assignMoveSelf h1 ih => simpa [Vec.moveAssign] using ih
  | resize n d h1 ih => exact resize_wf n d ih
  | pushBack x h1 ih => exact emplaceBack_wf x ih
  | emplaceBack x h1 ih => exact emplaceBack_wf x ih
  | popBack h0 h1 ih =>
    simp [Vec.popBack, Vec.size] at *
    omega
  | emplace dist x hd h1 ih => exact emplace_wf x hd ih
  | insert dist x hd h1 ih => exact emplace_wf x hd ih
  | erase dist hd h1 ih =>
    simp [Vec.erase, Vec.size] at *
    omega
  | reserve n h1 ih =>
    unfold Vec.reserve
    split
    · exact ih
    · simp [Vec.size] at *
      omega
  | swapFst h1 h2 ih1 ih2 => exact ih2
  | swapSnd h1 h2 ih1 ih2 => exact ih1

/-- Witness for C2 at a concrete reachable state: one push onto the default
vector. -/
theorem reachable_size_le_cap_app :
    ((Vec.empty Nat).pushBack 5).size ≤ ((Vec.empty Nat).pushBack 5).cap :=
  reachable_size_le_cap _ (Reachable.pushBack 5 Reachable.ctorDefault)

/-! ### Claim C3 -/

/-- C3: after n successive appends to the default-constructed vector, size is n and
the elements are the pushed values in insertion order; whenever an append finds
size equal to capacity the new capacity is max 1 (capacity * 2); and the capacity
after n ≥ 1 appends is the least power of two that is at least n (so the observed
capacities follow the doubling sequence 1, 2, 4, 8, ...). -/
theorem pushSeq_growth_spec {α : Type} (xs : List α) :
    (pushSeq xs).elems = xs ∧
    (pushSeq xs).size = xs.length ∧
    (∀ v : Vec α, ∀ x : α, v.size = v.cap →
      (v.pushBack x).cap = max 1 (v.cap * 2)) ∧
    (1 ≤ xs.length →
      xs.length ≤ (pushSeq xs).cap ∧ (pushSeq xs).cap < 2 * xs.length ∧
      ∃ k : Nat, (pushSeq xs).cap = 2 ^ k) := by
  refine ⟨pushSeq_elems xs, pushSeq_size xs, ?_, ?_⟩
  · intro v x hvc
    rw [pushBack_cap]
    have hnlt : ¬ v.size < v.cap := by omega
    rw [if_neg hnlt]
    by_cases h0 : v.size = 0
    · have hc0 : v.cap = 0 := by omega
      simp [h0, hc0]
    · rw [if_neg h0]
      omega
  · intro hx
    rw [pushSeq_cap]
    exact capAfter_spec xs.length hx

/-- Witness for C3 at the concrete input of three pushes. -/
theorem pushSeq_growth_spec_app :
    (pushSeq [10, 20, 30]).elems = [10, 20, 30] ∧
    3 ≤ (pushSeq [10, 20, 30]).cap ∧ (pushSeq [10, 20, 30]).cap < 6 := by
  have h := pushSeq_growth_spec [10, 20, 30]
  refine ⟨h.1, ?_, ?_⟩
  · have h2 := (h.2.2.2 (by decide)).1
    simpa using h2
  · have h2 := (h.2.2.2 (by decide)).2.1
    simpa using h2

/-! ### Claims C5, C6, C7 -/

theorem emplace_elems {α : Type} (v : Vec α) (dist : Nat) (x : α) (hd : dist ≤ v.size) :
    ((v.emplace dist x).1).elems = v.elems.take dist ++ x :: v.elems.drop dist := by
  unfold Vec.emplace
  split
  · next he =>
    show (v.emplaceBack x).elems = _
    rw [emplaceBack_elems, he]
    simp [Vec.size, List.take_length, List.drop_length]
  · split
    · rfl
    · rfl

theorem emplace_snd {α : Type} (v : Vec α) (dist : Nat) (x : α) :
    (v.emplace dist x).2 = dist := by
  unfold Vec.emplace
  split
  · next he => exact he.symm
  · split
    · rfl
    · rfl

/-- C5: Emplace (and hence Insert) of x at a valid offset i of a vector of size k
yields size k + 1, returns position i, places x at offset i, keeps every element
before i in place and shifts every element from i on one slot right. -/
theorem emplace_insert_spec {α : Type} (v : Vec α) (i : Nat) (x : α) (h : i ≤ v.size) :
    ((v.emplace i x).1).size = v.size + 1 ∧
    (v.emplace i x).2 = i ∧
    ((v.emplace i x).1).elems[i]? = some x ∧
    (∀ j, j < i → ((v.emplace i x).1).elems[j]? = v.elems[j]?) ∧
    (∀ j, i ≤ j → j < v.size → ((v.emplace i x).1).elems[j + 1]? = v.elems[j]?) := by
  have he := emplace_elems v i x h
  have hs : i ≤ v.elems.length := h
  have hlen : (v.elems.take i).length = i := by
    simp
    omega
  refine ⟨?_, emplace_snd v i x, ?_, ?_, ?_⟩
  · simp [Vec.size, he]
    omega
  · rw [he, List.getElem?_append_right hlen.le, hlen]
    simp
  · intro j hj
    rw [he, List.getElem?_append, hlen, if_pos hj, List.getElem?_take, if_pos hj]
  · intro j hij hjs
    rw [he, List.getElem?_append_right (by rw [hlen]; omega), hlen,
      (by omega : j + 1 - i = j - i + 1), List.getElem?_cons_succ,
      List.getElem?_drop, (by omega : i + (j - i) = j)]

/-- Witness for C5: inserting 3 at offset 2 of [1, 2, 4]. -/
theorem emplace_insert_spec_app :
    ((Vec.mk [1, 2, 4] 4).emplace 2 3).1.size = 4 ∧
    ((Vec.mk [1, 2, 4] 4).emplace 2 3).1.elems[2]? = some 3 := by
  have h := emplace_insert_spec (Vec.mk ([1, 2, 4] : List Nat) 4) 2 3 (by decide)
  exact ⟨h.1, h.2.2.1⟩

/-- C6: Erase at a valid offset i of a vector of size k > 0 yields size k - 1,
returns position i, keeps every element before i in place and shifts every later
element one slot left. -/
theorem erase_spec {α : Type} (v : Vec α) (i : Nat) (h : i < v.size) :
    ((v.erase i).1).size = v.size - 1 ∧
    (v.erase i).2 = i ∧
    (∀ j, j < i → ((v.erase i).1).elems[j]? = v.elems[j]?) ∧
    (∀ j, i ≤ j → j < v.size - 1 → ((v.erase i).1).elems[j]? = v.elems[j + 1]?) := by
  have hs : i < v.elems.length := h
  have hlen : (v.elems.take i).length = i := by
    simp
    omega
  refine ⟨?_, rfl, ?_, ?_⟩
  · simp [Vec.size, Vec.erase]
    omega
  · intro j hj
    show (v.elems.take i ++ v.elems.drop (i + 1))[j]? = _
    rw [List.getElem?_append, hlen, if_pos hj, List.getElem?_take, if_pos hj]
  · intro j hij hjs
    show (v.elems.take i ++ v.elems.drop (i + 1))[j]? = _
    rw [List.getElem?_append_right (by rw [hlen]; omega), hlen,
      List.getElem?_drop, (by omega : i + 1 + (j - i) = j + 1)]

/-- Witness for C6: erasing offset 2 of [1, 2, 3, 4, 5]. -/
theorem erase_spec_app :
    ((Vec.mk [1, 2, 3, 4, 5] 5).erase 2).1.size = 4 ∧
    ((Vec.mk [1, 2, 3, 4, 5] 5).erase 2).1.elems[2]? =
      (Vec.mk ([1, 2, 3, 4, 5] : List Nat) 5).elems[3]? := by
  have h := erase_spec (Vec.mk ([1, 2, 3, 4, 5] : List Nat) 5) 2 (by decide)
  exact ⟨h.1, h.2.2.2 2 (by decide) (by decide)⟩

/-- C7: Insert of x at a valid position i immediately followed by Erase at the
returned position reproduces the original element sequence (same size, same
elements, same order). -/
theorem insert_erase_roundtrip {α : Type} (v : Vec α) (i : Nat) (x : α)
    (h : i ≤ v.size) :
    (((v.insert i x).1).erase ((v.insert i x).2)).1.elems = v.elems ∧
    (((v.insert i x).1).erase ((v.insert i x).2)).1.size = v.size := by
  have hsnd : (v.insert i x).2 = i := emplace_snd v i x
  have he : ((v.insert i x).1).elems = v.elems.take i ++ x :: v.elems.drop i :=
    emplace_elems v i x h
  have hs : i ≤ v.elems.length := h
  have hlen : (v.elems.take i).length = i := by
    simp
    omega
  have hmain : (((v.insert i x).1).erase ((v.insert i x).2)).1.elems = v.elems := by
    rw [hsnd]
    show ((v.insert i x).1.elems.take i ++ (v.insert i x).1.elems.drop (i + 1))
        = v.elems
    rw [he]
    have h1 : (v.elems.take i ++ x :: v.elems.drop i).take i = v.elems.take i := by
      rw [List.take_append_of_le_length hlen.ge]
      rw [List.take_take]
      simp
    have h2 : (v.elems.take i ++ x :: v.elems.drop i).drop (i + 1)
        = v.elems.drop i := by
      have hx : v.elems.take i ++ x :: v.elems.drop i
          = (v.elems.take i ++ [x]) ++ v.elems.drop i := by simp
      rw [hx]
      have hlen2 : (v.elems.take i ++ [x]).length = i + 1 := by simp [hlen]
      rw [← hlen2, List.drop_left]
    rw [h1, h2, List.take_append_drop]
  exact ⟨hmain, by simp [Vec.size, hmain]⟩

/-- Witness for C7: insert 3 at offset 2 of [1, 2, 4, 5], then erase there. -/
theorem insert_erase_roundtrip_app :
    ((((Vec.mk [1, 2, 4, 5] 4).insert 2 3).1).erase
        (((Vec.mk ([1, 2, 4, 5] : List Nat) 4).insert 2 3).2)).1.elems
      = [1, 2, 4, 5] :=
  (insert_erase_roundtrip (Vec.mk ([1, 2, 4, 5] : List Nat) 4) 2 3 (by decide)).1

/-! ### Claim C8 -/

/-- C8: Reserve with n at most the capacity changes nothing; with n above the
capacity the capacity becomes exactly n with the elements unchanged; Reserve never
shrinks the capacity. -/
theorem reserve_spec {α : Type} (v : Vec α) (n : Nat) :
    ((v.reserve n).elems = v.elems) ∧
    (v.cap ≤ (v.reserve n).cap) ∧
    (n ≤ v.cap → v.reserve n = v) ∧
    (v.cap < n → (v.reserve n).cap = n) := by
  by_cases hc : n ≤ v.cap
  · exact ⟨by simp [Vec.reserve, hc], by simp [Vec.reserve, hc],
      fun _ => by simp [Vec.reserve, hc], fun hlt => absurd hlt (by omega)⟩
  · refine ⟨by simp [Vec.reserve, hc], ?_, fun hle => absurd hle hc,
      fun _ => by simp [Vec.reserve, hc]⟩
    simp [Vec.reserve, hc]
    omega

/-- Witness for C8 at concrete inputs on both sides of the capacity. -/
theorem reserve_spec_app :
    (Vec.mk ([7] : List Nat) 2).reserve 1 = Vec.mk [7] 2 ∧
    ((Vec.mk ([7] : List Nat) 2).reserve 5).cap = 5 :=
  ⟨(reserve_spec (Vec.mk ([7] : List Nat) 2) 1).2.2.1 (by decide),
   (reserve_spec (Vec.mk ([7] : List Nat) 2) 5).2.2.2 (by decide)⟩

/-! ### Claim C9 -/

/-- C9: copy self-assignment is a no-op: the guard this != rhs skips the whole
body, and the trailing size_ = rhs.size_ rewrites size_ with itself, so size,
capacity and every element are unchanged. -/
theorem copyAssign_self_id {α : Type} (v : Vec α) : v.copyAssign v true = v := by
  simp [Vec.copyAssign]

/-! ### Claim C10 -/

/-- C10: PopBack and Erase never change the capacity (no reallocation, no
shrinking), and PopBack keeps the first size - 1 elements unchanged. -/
theorem popBack_erase_frame {α : Type} (v : Vec α) (i : Nat) (h0 : 0 < v.size)
    (hi : i < v.size) :
    (v.popBack).cap = v.cap ∧
    ((v.erase i).1).cap = v.cap ∧
    (v.popBack).size = v.size - 1 ∧
    (∀ j, j < v.size - 1 → (v.popBack).elems[j]? = v.elems[j]?) := by
  refine ⟨rfl, rfl, ?_, ?_⟩
  · simp [Vec.popBack, Vec.size]
  · intro j hj
    have hj2 : j < v.elems.length - 1 := hj
    show v.elems.dropLast[j]? = _
    rw [List.dropLast_eq_take, List.getElem?_take, if_pos hj2]

/-- Witness for C10: popping and erasing on [1, 2, 3] with spare capacity 4. -/
theorem popBack_erase_frame_app :
    ((Vec.mk ([1, 2, 3] : List Nat) 4).popBack).cap = 4 ∧
    (((Vec.mk ([1, 2, 3] : List Nat) 4).erase 1).1).cap = 4 ∧
    ((Vec.mk ([1, 2, 3] : List Nat) 4).popBack).elems[0]? = some 1 := by
  have h := popBack_erase_frame (Vec.mk ([1, 2, 3] : List Nat) 4) 1 (by decide)
    (by decide)
  exact ⟨h.1, h.2.1, (h.2.2.2 0 (by decide)).trans rfl⟩

end AdvVec
